import Mathlib

/-!
Verification of the `easycpp` stub generator (`src/easycpp/stubs.py`).

The development shallowly embeds the line-oriented declaration scanner:
strings are lists of ASCII characters, each compiled regular expression of
the source is embedded as a dedicated deterministic matcher implementing
CPython `re` semantics (leftmost search, greedy quantifiers) for that
particular pattern, and the one statement of the scanner that can raise a
`ValueError` (the parameter unpacking in `_get_function_annotations`) is
modelled with `Option`: `none` is an escaped exception.

The embedding assumes ASCII source text: `\w` is read as `[A-Za-z0-9_]`
and `\s` as the six ASCII whitespace characters, which is what the Python
patterns match on ASCII input.
-/

namespace EasyCpp

/-- Python `\w` (and the redundant `\d`, `_` of the source patterns) on ASCII. -/
def isWordChar (c : Char) : Bool :=
  c.isAlphanum || c = '_'

/-- Python `\s` on ASCII: space, tab, newline, carriage return, form feed, vertical tab. -/
def isSpaceChar (c : Char) : Bool :=
  c = ' ' || c = '\t' || c = '\n' || c = '\x0d' || c = '\x0b' || c = '\x0c'

/-- Greedy run of characters satisfying `p` and the remainder, i.e. a regex `[class]*`. -/
def spanP (p : Char → Bool) (l : List Char) : List Char × List Char :=
  (l.takeWhile p, l.dropWhile p)

/-- Python `str.split(sep)` for a one-character separator (never drops empty parts). -/
def splitChar (sep : Char) : List Char → List (List Char)
  | [] => [[]]
  | c :: rest =>
    let r := splitChar sep rest
    if c = sep then [] :: r
    else
      match r with
      | [] => [[c]]
      | h :: t => (c :: h) :: t

/-- Python `str.strip()`: remove leading and trailing whitespace. -/
def stripWs (l : List Char) : List Char :=
  ((l.dropWhile isSpaceChar).reverse.dropWhile isSpaceChar).reverse

/-- Fuel-driven worker for `pyReplace`; the fuel is an upper bound on the
number of characters still to be consumed, so `l.length` is always enough. -/
def pyReplaceGo (pat repl : List Char) : Nat → List Char → List Char
  | 0, l => l
  | _ + 1, [] => []
  | n + 1, c :: rest =>
    if pat ≠ [] ∧ pat.isPrefixOf (c :: rest) then
      repl ++ pyReplaceGo pat repl n ((c :: rest).drop pat.length)
    else
      c :: pyReplaceGo pat repl n rest

/-- Python `str.replace(pat, repl)`: replace all non-overlapping occurrences,
left to right (the source only uses it with non-empty `pat`). -/
def pyReplace (pat repl l : List Char) : List Char :=
  pyReplaceGo pat repl l.length l

/-- `_POINTER_OR_ADDRESS.sub('', s)`: delete every `*` and `&`. -/
def stripSigils (l : List Char) : List Char :=
  l.filter (fun c => ¬(c = '*' ∨ c = '&'))

/-! ### `_FUNCTION_REGEX = ([\w\d_]+)\s+([\w\d_]+)(\([\w\d*\s\[\],]+\))` -/

/-- Character class of the parameter-list group of `_FUNCTION_REGEX`:
word characters, `*`, whitespace, `[`, `]`, `,` — note: at least one
character is required between the parentheses, and `)` is not in the class. -/
def isParamChar (c : Char) : Bool :=
  isWordChar c || c = '*' || isSpaceChar c || c = '[' || c = ']' || c = ','

/-- Anchored match of `_FUNCTION_REGEX` at the start of `l`, returning
groups 1, 2, 3 (group 3 keeps its parentheses, as in Python).  All
quantifier choices of the pattern are forced (adjacent character classes
are disjoint), so greedy maximal munch is exact. -/
def funcMatchAt (l : List Char) : Option (List Char × List Char × List Char) :=
  let g1 := l.takeWhile isWordChar
  let r1 := l.dropWhile isWordChar
  if g1 = [] then none else
  let s1 := r1.takeWhile isSpaceChar
  let r2 := r1.dropWhile isSpaceChar
  if s1 = [] then none else
  let g2 := r2.takeWhile isWordChar
  let r3 := r2.dropWhile isWordChar
  if g2 = [] then none else
  match r3 with
  | '(' :: r4 =>
    let ps := r4.takeWhile isParamChar
    let r5 := r4.dropWhile isParamChar
    if ps = [] then none else
    match r5 with
    | ')' :: _ => some (g1, g2, '(' :: (ps ++ [')']))
    | _ => none
  | _ => none

/-- `_FUNCTION_REGEX.search`: leftmost match. -/
def funcSearch : List Char → Option (List Char × List Char × List Char)
  | [] => none
  | c :: t =>
    match funcMatchAt (c :: t) with
    | some r => some r
    | none => funcSearch t

/-! ### `_CLASS_REGEX = class[\s\n\t]*([\w\d_]+)` -/

/-- Anchored match of `_CLASS_REGEX`, returning group 1. -/
def classMatchAt (l : List Char) : Option (List Char) :=
  if ("class".data).isPrefixOf l then
    let r := l.drop 5
    let (_, r1) := spanP isSpaceChar r
    let (name, _) := spanP isWordChar r1
    if name = [] then none else some name
  else none

/-- `_CLASS_REGEX.search`: leftmost match. -/
def classSearch : List Char → Option (List Char)
  | [] => none
  | c :: t =>
    match classMatchAt (c :: t) with
    | some r => some r
    | none => classSearch t

/-! ### `_GET_CLASSES_REGEX = class[\s\n\t]*([\w\d_]+)[\s\n\t]*\{[.\n]*` -/

/-- Anchored match of `_GET_CLASSES_REGEX`, returning group 1 and the
remainder after the whole (greedy) match; the pattern requires a literal
`{` after the class name. -/
def classFullMatchAt (l : List Char) : Option (List Char × List Char) :=
  if ("class".data).isPrefixOf l then
    let r1 := (l.drop 5).dropWhile isSpaceChar
    let name := r1.takeWhile isWordChar
    let r2 := r1.dropWhile isWordChar
    if name = [] then none else
    let r3 := r2.dropWhile isSpaceChar
    match r3 with
    | '{' :: r4 => some (name, r4.dropWhile (fun c => c = '.' || c = '\n'))
    | _ => none
  else none

/-- Fuel-driven worker for `classesFindall`; every match consumes at least
six characters, so `l.length` fuel is always enough. -/
def classesFindallGo : Nat → List Char → List (List Char)
  | 0, _ => []
  | _ + 1, [] => []
  | n + 1, c :: t =>
    match classFullMatchAt (c :: t) with
    | some (name, rest) => name :: classesFindallGo n rest
    | none => classesFindallGo n t

/-- `_GET_CLASSES_REGEX.findall(code)`: non-overlapping leftmost matches
over the whole source, collecting group 1 of each. -/
def classesFindall (l : List Char) : List (List Char) :=
  classesFindallGo l.length l

/-! ### `_VAR_REGEX = ([\w\d_]+)\s+[*&]*([\w\d_]+)\s*=?\s*[\w\d_]*;` -/

/-- Anchored match of `_VAR_REGEX`, returning groups 1 (type position) and
2 (name position).  All quantifier choices are forced, so maximal munch is
exact. -/
def varMatchAt (l : List Char) : Option (List Char × List Char) :=
  let (g1, r1) := spanP isWordChar l
  if g1 = [] then none else
  let (s1, r2) := spanP isSpaceChar r1
  if s1 = [] then none else
  let (_, r3) := spanP (fun c => c = '*' || c = '&') r2
  let (g2, r4) := spanP isWordChar r3
  if g2 = [] then none else
  let (_, r5) := spanP isSpaceChar r4
  let r6 :=
    match r5 with
    | '=' :: rr => (spanP isSpaceChar rr).2
    | _ => r5
  let (_, r7) := spanP isWordChar r6
  match r7 with
  | ';' :: _ => some (g1, g2)
  | _ => none

/-- `_VAR_REGEX.search`: leftmost match. -/
def varSearch : List Char → Option (List Char × List Char)
  | [] => none
  | c :: t =>
    match varMatchAt (c :: t) with
    | some r => some r
    | none => varSearch t

/-! ### `_ARRAY_REGEX =
`([\w\d_]+)\s+[*&]*([\w\d_]+)[\s\t\n]*\[[\s\t]*.*[\s\t]*]\s*=?[\s*{}\w\d_,]+;` -/

/-- Character class `[\s*{}\w\d_,]` of the initializer group of `_ARRAY_REGEX`. -/
def isArrClsChar (c : Char) : Bool :=
  isSpaceChar c || c = '*' || c = '{' || c = '}' || isWordChar c || c = ','

/-- The tail `\s*=?[\s*{}\w\d_,]+;` of `_ARRAY_REGEX` after the closing
bracket.  Because the final class contains every whitespace character, the
`\s*` may backtrack into it; the two branches below are exactly the
satisfiable backtracking outcomes. -/
def arrTail (b : List Char) : Bool :=
  let (w, r) := spanP isSpaceChar b
  match r with
  | '=' :: r2 =>
    let (cls, r3) := spanP isArrClsChar r2
    decide (cls ≠ []) &&
      (match r3 with
       | ';' :: _ => true
       | _ => false)
  | _ =>
    let (cls, r3) := spanP isArrClsChar r
    (decide (w ≠ []) || decide (cls ≠ [])) &&
      (match r3 with
       | ';' :: _ => true
       | _ => false)

/-- The part `[\s\t]*.*[\s\t]*]` plus tail, after the opening bracket: the
leading pieces match anything without a newline, so the pattern succeeds
iff some `]` not preceded by a newline has a matching tail. -/
def arrayBracketRest : List Char → Bool
  | [] => false
  | c :: rest => (decide (c = ']') && arrTail rest) || (decide (c ≠ '\n') && arrayBracketRest rest)

/-- Anchored match of `_ARRAY_REGEX`, returning groups 1 and 2. -/
def arrayMatchAt (l : List Char) : Option (List Char × List Char) :=
  let (g1, r1) := spanP isWordChar l
  if g1 = [] then none else
  let (s1, r2) := spanP isSpaceChar r1
  if s1 = [] then none else
  let (_, r3) := spanP (fun c => c = '*' || c = '&') r2
  let (g2, r4) := spanP isWordChar r3
  if g2 = [] then none else
  let (_, r5) := spanP isSpaceChar r4
  match r5 with
  | '[' :: r6 => if arrayBracketRest r6 then some (g1, g2) else none
  | _ => none

/-- `_ARRAY_REGEX.search`: leftmost match. -/
def arraySearch : List Char → Option (List Char × List Char)
  | [] => none
  | c :: t =>
    match arrayMatchAt (c :: t) with
    | some r => some r
    | none => arraySearch t

/-! ### `_FILE_SUFFIX_REGEX = \.c(pp)?` and `re.sub` -/

/-- `_FILE_SUFFIX_REGEX.sub('.pyi', path)`: replace every non-overlapping
occurrence of `.cpp` or `.c` (the optional `pp` is greedy) by `.pyi`. -/
def fileSuffixSub : List Char → List Char
  | '.' :: 'c' :: 'p' :: 'p' :: rest => '.' :: 'p' :: 'y' :: 'i' :: fileSuffixSub rest
  | '.' :: 'c' :: rest => '.' :: 'p' :: 'y' :: 'i' :: fileSuffixSub rest
  | c :: rest => c :: fileSuffixSub rest
  | [] => []

/-- `stubs_path = _FILE_SUFFIX_REGEX.sub('.pyi', path)` (line 108 of the source). -/
def stubsPath (p : String) : String :=
  String.mk (fileSuffixSub p.data)

/-- Whether a list of characters starts with the letter `c`. -/
def headIsC : List Char → Bool
  | [] => false
  | x :: _ => decide (x = 'c')

/-- No occurrence of the two-character sequence `.c` anywhere in the list —
i.e. no position where `_FILE_SUFFIX_REGEX` could match. -/
def noDotC : List Char → Bool
  | [] => true
  | c :: rest => (!(decide (c = '.') && headIsC rest)) && noDotC rest

/-! ### The type mapper `_get_name` and `_CTYPES_CONVERSIONS` -/

/-- The keys of `_CTYPES_CONVERSIONS`: the fixed table of primitive spellings. -/
def primitiveTable : List (List Char) :=
  ["void".data, "bool".data, "char".data, "wchar_t".data, "short".data, "int".data,
   "long".data, "__int64".data, "size_t".data, "ssize_t".data, "float".data, "double".data]

/-- `_get_name(string, classes)`: the dictionary lookup in
`_CTYPES_CONVERSIONS` (followed by `str(...)` of the resulting Python type
object, hence `void ↦ "None"`, `char ↦ "str"`, …), falling back to the
token itself when it is a known class name and to `typing.Any` otherwise. -/
def getName (s : List Char) (classes : List (List Char)) : List Char :=
  if s = "void".data then "None".data
  else if s = "bool".data then "bool".data
  else if s = "char".data then "str".data
  else if s = "wchar_t".data then "str".data
  else if s = "short".data then "int".data
  else if s = "int".data then "int".data
  else if s = "long".data then "int".data
  else if s = "__int64".data then "int".data
  else if s = "size_t".data then "int".data
  else if s = "ssize_t".data then "int".data
  else if s = "float".data then "float".data
  else if s = "double".data then "float".data
  else if s ∈ classes then s
  else "typing.Any".data

/-! ### The scanner `generate_stubs` (lines 108-157) and
`_get_function_annotations` (lines 171-194) -/

/-- The exact content of `_BASE_STRING`: the fixed preamble the output
buffer is seeded with (note the line of four trailing spaces after the
`__delitem__` line, and the trailing blank line). -/
def baseString : String :=
  "import abc\nimport typing\n\nT = typing.TypeVar('T')\n\n\nclass _MutableCollection(typing.Collection[T], abc.ABC):  # this is made to type arrays\n    def __getitem__(self, name: str) -> T: ...\n    def __setitem__(self, index: int, value: T) -> None: ...\n    def __delitem__(self, index: int) -> None: ...\n    \n# typing for C++ below\n\n"

/-- `' ' * current_level` (a negative count would give the empty string,
exactly as in Python). -/
def indentOf (n : Int) : List Char :=
  List.replicate n.toNat ' '

/-- The parameter loop of `_get_function_annotations`: each comma-separated
parameter is stripped, double spaces are collapsed once, and the result is
unpacked into exactly two space-separated tokens — any other shape raises a
`ValueError` in Python, modelled by `none`.  Sigils `*`/`&` are deleted from
both tokens and the type token goes through the type mapper. -/
def paramBuild (classes : List (List Char)) : List (List Char) → Option (List Char)
  | [] => some []
  | p :: rest =>
    let q := pyReplace ("  ".data) (" ".data) (stripWs p)
    match splitChar ' ' q with
    | [t, n] =>
      (paramBuild classes rest).map (fun acc =>
        (stripSigils n ++ ": ".data ++ getName (stripSigils t) classes ++ [',']) ++ acc)
    | _ => none

/-- `_get_function_annotations(function_match, classes, current_level)`:
builds `def <name>(<params>) -> <ret>: ...` followed by a blank line, at the
current indent.  The return-type token additionally has leading `*`
stripped and the substrings `unsigned ` and `long ` removed (no-ops for
group 1 of `_FUNCTION_REGEX`, which is a bare identifier). -/
def getFunctionAnnotations (m : List Char × List Char × List Char)
    (classes : List (List Char)) (level : Int) : Option (List Char) :=
  let params := splitChar ',' (m.2.2.filter (fun c => ¬(c = '(' ∨ c = ')')))
  (paramBuild classes params).map (fun ps =>
    let ret := getName
      (pyReplace ("long ".data) [] (pyReplace ("unsigned ".data) [] (m.1.dropWhile (· = '*'))))
      classes
    indentOf level ++ "def ".data ++ m.2.1 ++ ['('] ++ ps ++ ") -> ".data ++ ret
      ++ ": ...\n\n".data)

/-- The class branch of the scanner loop (lines 131-134 of the source): on
a `_CLASS_REGEX` match, append the class header and its indented `...`
placeholder body line; otherwise pass the buffer fragment (still empty) and
the previous `last_match` through. -/
def classStep (level : Int) (last : String) : Option (List Char) → List Char × String
  | some name =>
    (indentOf level ++ "class ".data ++ name ++ ":\n".data
       ++ indentOf (level + 4) ++ "...\n".data, "class")
  | none => ([], last)

/-- The function branch of the scanner loop (lines 136-138 of the source):
on a `_FUNCTION_REGEX` match, append the annotation built by
`_get_function_annotations` (which can fail, i.e. raise) to the fragment
`p1` produced by the class branch. -/
def funcStep (classes : List (List Char)) (level : Int) (p1 : List Char × String) :
    Option (List Char × List Char × List Char) → Option (List Char × String)
  | some m => (getFunctionAnnotations m classes level).map (fun s => (p1.1 ++ s, "function"))
  | none => some p1

/-- The guarded variable branch of the scanner loop (lines 140-143 of the
source): on a `_VAR_REGEX` match, the variable line is appended only when
group 1 (the type position) is not the literal token `return` and either
the running brace counts are equal or the last matched construct is not a
function; `pair` is the buffer-fragment/`last_match` pair produced by the
class and function branches of the same line. -/
def varStep (classes : List (List Char)) (level : Int) (ob cb : Nat)
    (pair : List Char × String) : Option (List Char × List Char) → List Char × String
  | some (t, n) =>
    if t ≠ "return".data ∧ (ob = cb ∨ pair.2 ≠ "function") then
      (pair.1 ++ indentOf level ++ n ++ ": ".data ++ getName t classes ++ "\n".data, "var")
    else pair
  | none => pair

/-- The array branch of the scanner loop (lines 145-149 of the source): on
an `_ARRAY_REGEX` match, append the `_MutableCollection` line. -/
def arrStep (classes : List (List Char)) (level : Int) (p3 : List Char × String) :
    Option (List Char × List Char) → List Char × String
  | some (t, n) =>
    (p3.1 ++ indentOf level ++ n ++ ": _MutableCollection[".data
       ++ getName t classes ++ "]\n".data, "array")
  | none => p3

/-- The per-line emissions of the scanner loop (lines 131-149): class
header, function annotation, guarded variable line, array line, appended in
that fixed order; the result is the text appended for this line and the new
`last_match`.  `ob`/`cb` are the brace counts already updated for this line
(lines 126-129 precede the emissions in the source). -/
def lineOut (classes : List (List Char)) (level : Int) (ob cb : Nat) (last : String)
    (line : List Char) : Option (List Char × String) :=
  (funcStep classes level (classStep level last (classSearch line)) (funcSearch line)).map
    (fun p2 => arrStep classes level
      (varStep classes level ob cb p2 (varSearch line)) (arraySearch line))

/-- The scanner state threaded through the loop of `generate_stubs`:
the output buffer, `current_level`, `brackets[0]`, `brackets[1]`, and
`last_match`. -/
structure ScanState where
  out : List Char
  level : Int
  ob : Nat
  cb : Nat
  last : String
deriving DecidableEq, Repr

/-- One iteration of the loop of `generate_stubs` (lines 120-154): update
the brace counts, append this line's emissions (computed at the indent
level of before this line), then adjust the indent level — increment on a
`{` of a non-function line, then decrement on a `}` of a non-function line
when the (possibly just incremented) level is at least 4.  `none` is the
`ValueError` escaping from `_get_function_annotations`. -/
def processLine (classes : List (List Char)) (st : ScanState) (line : List Char) :
    Option ScanState :=
  let ob := if '{' ∈ line then st.ob + 1 else st.ob
  let cb := if '}' ∈ line then st.cb + 1 else st.cb
  match lineOut classes st.level ob cb st.last line with
  | none => none
  | some (txt, last') =>
    let lvl₁ := if '{' ∈ line ∧ funcSearch line = none then st.level + 4 else st.level
    let lvl₂ := if '}' ∈ line ∧ 4 ≤ lvl₁ ∧ funcSearch line = none then lvl₁ - 4 else lvl₁
    some { out := st.out ++ txt, level := lvl₂, ob := ob, cb := cb, last := last' }

/-- The scanner's initial state: buffer seeded with `_BASE_STRING`, level
and brace counts zero, `last_match` the empty string. -/
def initState : ScanState :=
  { out := baseString.data, level := 0, ob := 0, cb := 0, last := "" }

/-- The pure scanning pass of `generate_stubs`: pre-scan the class names,
split the source on newlines, run the loop; `none` when a `ValueError`
escapes (in which case the Python function writes nothing). -/
def generateStubsString (code : String) : Option String :=
  let classes := classesFindall code.data
  ((splitChar '\n' code.data).foldlM (processLine classes) initState).map
    (fun st => String.mk st.out)

/-! ### A small file-system model for the read/write behaviour -/

/-- A file system as an association list from paths to contents. -/
abbrev FS : Type := List (String × String)

/-- Read a file: the first entry with the given path. -/
def fsRead (fs : FS) (p : String) : Option String :=
  (List.find? (fun kv => kv.1 == p) fs).map Prod.snd

/-- Write a file: replace any entry at the path with the new content. -/
def fsWrite (fs : FS) (p v : String) : FS :=
  (p, v) :: List.filter (fun kv => !(kv.1 == p)) fs

/-- `generate_stubs(path)` without the optional formatter step: read the
source at `path`, run the scanning pass, write the result at the derived
stub path.  `none` models an escaped exception (missing source file or
`ValueError`), in which case nothing is written. -/
def generateStubsFS (fs : FS) (path : String) : Option FS :=
  match fsRead fs path with
  | none => none
  | some src =>
    match generateStubsString src with
    | none => none
    | some out => some (fsWrite fs (stubsPath path) out)

/-! ### Helper lemmas -/

set_option maxRecDepth 40000

lemma lineOut_isSome_of_no_func (classes : List (List Char)) (level : Int) (ob cb : Nat)
    (last : String) (line : List Char) (h : funcSearch line = none) :
    (lineOut classes level ob cb last line).isSome := by
  simp only [lineOut, h, funcStep]
  simp

lemma processLine_isSome_of_no_func (classes : List (List Char)) (st : ScanState)
    (line : List Char) (h : funcSearch line = none) :
    (processLine classes st line).isSome := by
  have h2 := lineOut_isSome_of_no_func classes st.level
    (if '{' ∈ line then st.ob + 1 else st.ob) (if '}' ∈ line then st.cb + 1 else st.cb)
    st.last line h
  obtain ⟨p, hp⟩ := Option.isSome_iff_exists.mp h2
  obtain ⟨txt, last'⟩ := p
  simp only [processLine, hp]
  simp

lemma foldlM_isSome_of_no_func (classes : List (List Char)) :
    ∀ (lines : List (List Char)) (st : ScanState),
      (∀ l ∈ lines, funcSearch l = none) →
      (lines.foldlM (processLine classes) st).isSome := by
  intro lines
  induction lines with
  | nil => intro st _; simp [List.foldlM]
  | cons l ls ih =>
    intro st h
    have h1 : funcSearch l = none := h l (by simp)
    obtain ⟨st', hst'⟩ :=
      Option.isSome_iff_exists.mp (processLine_isSome_of_no_func classes st l h1)
    simp only [List.foldlM_cons, hst', Option.some_bind]
    exact ih st' (fun x hx => h x (by simp [hx]))

lemma processLine_elim {classes : List (List Char)} {st : ScanState} {line : List Char}
    {st' : ScanState} (h : processLine classes st line = some st') :
    ∃ txt last',
      lineOut classes st.level (if '{' ∈ line then st.ob + 1 else st.ob)
          (if '}' ∈ line then st.cb + 1 else st.cb) st.last line = some (txt, last') ∧
      st' = { out := st.out ++ txt,
              level :=
                if '}' ∈ line ∧
                    4 ≤ (if '{' ∈ line ∧ funcSearch line = none then st.level + 4 else st.level) ∧
                    funcSearch line = none
                then (if '{' ∈ line ∧ funcSearch line = none then st.level + 4 else st.level) - 4
                else (if '{' ∈ line ∧ funcSearch line = none then st.level + 4 else st.level),
              ob := if '{' ∈ line then st.ob + 1 else st.ob,
              cb := if '}' ∈ line then st.cb + 1 else st.cb,
              last := last' } := by
  simp only [processLine] at h
  cases hlo : lineOut classes st.level (if '{' ∈ line then st.ob + 1 else st.ob)
      (if '}' ∈ line then st.cb + 1 else st.cb) st.last line with
  | none => rw [hlo] at h; exact absurd h (by simp)
  | some p =>
    obtain ⟨txt, last'⟩ := p
    rw [hlo] at h
    exact ⟨txt, last', rfl, (Option.some_inj.mp h).symm⟩

lemma processLine_level_invariant {classes : List (List Char)} {st : ScanState}
    {line : List Char} {st' : ScanState} (h : processLine classes st line = some st')
    (h0 : 0 ≤ st.level) (h4 : (4 : Int) ∣ st.level) :
    0 ≤ st'.level ∧ (4 : Int) ∣ st'.level := by
  obtain ⟨txt, last', _, rfl⟩ := processLine_elim h
  obtain ⟨k, hk⟩ := h4
  dsimp only
  split_ifs <;>
    exact ⟨by omega,
      by first
        | exact ⟨k, by omega⟩
        | exact ⟨k + 1, by omega⟩
        | exact ⟨k - 1, by omega⟩⟩

lemma scan_level_invariant (classes : List (List Char)) :
    ∀ (lines : List (List Char)) (st : ScanState), 0 ≤ st.level → (4 : Int) ∣ st.level →
      ∀ st', lines.foldlM (processLine classes) st = some st' →
        0 ≤ st'.level ∧ (4 : Int) ∣ st'.level := by
  intro lines
  induction lines with
  | nil =>
    intro st h0 h4 st' h
    simp only [List.foldlM_nil] at h
    cases Option.some_inj.mp h
    exact ⟨h0, h4⟩
  | cons l ls ih =>
    intro st h0 h4 st' h
    simp only [List.foldlM_cons] at h
    cases hp : processLine classes st l with
    | none => rw [hp] at h; exact absurd h (by simp)
    | some st₁ =>
      rw [hp] at h
      obtain ⟨h0', h4'⟩ := processLine_level_invariant hp h0 h4
      exact ih st₁ h0' h4' st' (by simpa using h)

lemma lineOut_array {classes : List (List Char)} {level : Int} {ob cb : Nat} {last : String}
    {line t n : List Char} {res : List Char × String}
    (ha : arraySearch line = some (t, n))
    (h : lineOut classes level ob cb last line = some res) :
    res.2 = "array" ∧
    ∃ pre, res.1 = pre ++ indentOf level ++ n ++ ": _MutableCollection[".data
        ++ getName t classes ++ "]\n".data := by
  simp only [lineOut] at h
  cases hfs : funcStep classes level (classStep level last (classSearch line))
      (funcSearch line) with
  | none => rw [hfs] at h; exact absurd h (by simp)
  | some p2 =>
    rw [hfs] at h
    simp only [Option.map_some'] at h
    have hres := (Option.some_inj.mp h).symm
    rw [ha] at hres
    simp only [arrStep] at hres
    subst hres
    exact ⟨rfl, _, rfl⟩

lemma funcMatchAt_group3_length {l g1 g2 g3 : List Char}
    (h : funcMatchAt l = some (g1, g2, g3)) : 3 ≤ g3.length := by
  simp only [funcMatchAt] at h
  split at h
  · exact absurd h (by simp)
  · split at h
    · exact absurd h (by simp)
    · split at h
      · exact absurd h (by simp)
      · split at h
        · split at h
          · exact absurd h (by simp)
          · rename_i hps
            split at h
            · have h3 := congrArg (fun q : List Char × List Char × List Char => q.2.2)
                (Option.some_inj.mp h)
              dsimp only at h3
              rw [← h3]
              have hlen := List.length_pos.mpr hps
              simp only [List.length_cons, List.length_append, List.length_nil]
              omega
            · exact absurd h (by simp)
        · exact absurd h (by simp)

lemma funcSearch_group3_length :
    ∀ {l g1 g2 g3 : List Char}, funcSearch l = some (g1, g2, g3) → 3 ≤ g3.length := by
  intro l
  induction l with
  | nil => intro g1 g2 g3 h; exact absurd h (by simp [funcSearch])
  | cons c t ih =>
    intro g1 g2 g3 h
    simp only [funcSearch] at h
    cases hm : funcMatchAt (c :: t) with
    | some r =>
      rw [hm] at h
      rw [Option.some_inj.mp h] at hm
      exact funcMatchAt_group3_length hm
    | none => rw [hm] at h; exact ih h

lemma classFullMatchAt_brace {l : List Char} {p : List Char × List Char}
    (h : classFullMatchAt l = some p) : '{' ∈ l := by
  simp only [classFullMatchAt] at h
  split at h
  · split at h
    · exact absurd h (by simp)
    · split at h
      · rename_i r4 heq
        have h1 : '{' ∈ (((l.drop 5).dropWhile isSpaceChar).dropWhile
            isWordChar).dropWhile isSpaceChar := by
          rw [heq]; exact List.mem_cons_self _ _
        exact (List.drop_sublist 5 l).subset
          ((List.dropWhile_sublist _).subset
            ((List.dropWhile_sublist _).subset ((List.dropWhile_sublist _).subset h1)))
      · exact absurd h (by simp)
  · exact absurd h (by simp)

lemma classesFindallGo_nil : ∀ (n : Nat) (l : List Char), '{' ∉ l →
    classesFindallGo n l = [] := by
  intro n
  induction n with
  | zero => intro l _; rfl
  | succ n ih =>
    intro l h
    cases l with
    | nil => rfl
    | cons c t =>
      simp only [classesFindallGo]
      cases hm : classFullMatchAt (c :: t) with
      | some p => exact absurd (classFullMatchAt_brace hm) h
      | none => exact ih t (fun hc => h (List.mem_cons_of_mem _ hc))

lemma fileSuffixSub_cons_of {c : Char} {l : List Char}
    (h : ¬(c = '.' ∧ headIsC l = true)) :
    fileSuffixSub (c :: l) = c :: fileSuffixSub l := by
  rw [fileSuffixSub.eq_def]
  split
  · rename_i rest heq
    injection heq with h1 h2
    exact absurd ⟨h1, by rw [h2]; simp [headIsC]⟩ h
  · rename_i rest heq
    injection heq with h1 h2
    exact absurd ⟨h1, by rw [h2]; simp [headIsC]⟩ h
  · rename_i c' rest _ _ heq
    injection heq with h1 h2
    rw [h1, h2]
  · rename_i heq
    exact absurd heq (by simp)

lemma fileSuffixSub_append :
    ∀ stem : List Char, noDotC stem = true →
      ∀ sfx : List Char, (sfx = ".cpp".data ∨ sfx = ".c".data) →
        fileSuffixSub (stem ++ sfx) = stem ++ ".pyi".data := by
  intro stem
  induction stem with
  | nil =>
    intro _ sfx hs
    rcases hs with rfl | rfl <;> decide
  | cons c rest ih =>
    intro hno sfx hs
    have hno2 : noDotC rest = true := by
      simp only [noDotC, Bool.and_eq_true] at hno
      exact hno.2
    have hkey : ¬(c = '.' ∧ headIsC (rest ++ sfx) = true) := by
      rintro ⟨rfl, hh⟩
      cases rest with
      | nil => rcases hs with rfl | rfl <;> simp [headIsC] at hh
      | cons r0 rt =>
        have h1 : headIsC (r0 :: rt) = false := by
          simp only [noDotC, Bool.and_eq_true, Bool.not_eq_true'] at hno
          simpa using hno.1
        rw [List.cons_append] at hh
        simp only [headIsC, decide_eq_true_eq] at hh
        simp only [headIsC, decide_eq_false_iff_not] at h1
        exact h1 hh
    rw [List.cons_append, fileSuffixSub_cons_of hkey, ih hno2 sfx hs, List.cons_append]

lemma find?_filter_ne {p k : String} (h : p ≠ k) :
    ∀ fs : FS, List.find? (fun kv => kv.1 == p) (List.filter (fun kv => !(kv.1 == k)) fs)
      = List.find? (fun kv => kv.1 == p) fs := by
  intro fs
  induction fs with
  | nil => rfl
  | cons a t ih =>
    by_cases ha : a.1 = p
    · have hak : ((fun kv : String × String => !(kv.1 == k)) a) = true := by
        simp [ha, h]
      have hap : ((fun kv : String × String => kv.1 == p) a) = true := by simp [ha]
      rw [List.filter_cons, if_pos hak,
        @List.find?_cons_of_pos _ (fun kv => kv.1 == p) a
          (List.filter (fun kv => !(kv.1 == k)) t) hap,
        @List.find?_cons_of_pos _ (fun kv => kv.1 == p) a t hap]
    · have hap : ¬((fun kv : String × String => kv.1 == p) a) = true := by simp [ha]
      rw [@List.find?_cons_of_neg _ (fun kv => kv.1 == p) a t hap, List.filter_cons]
      by_cases hak : a.1 = k
      · rw [if_neg (by simp [hak])]
        exact ih
      · rw [if_pos (by simp [hak]),
          @List.find?_cons_of_neg _ (fun kv => kv.1 == p) a
            (List.filter (fun kv => !(kv.1 == k)) t) hap]
        exact ih

lemma fsWrite_fsWrite (fs : FS) (k v : String) :
    fsWrite (fsWrite fs k v) k v = fsWrite fs k v := by
  simp only [fsWrite, List.filter_cons]
  rw [if_neg (by simp)]
  rw [List.filter_filter]
  simp [Bool.and_self]

lemma fsRead_fsWrite_ne {fs : FS} {k p v : String} (h : p ≠ k) :
    fsRead (fsWrite fs k v) p = fsRead fs p := by
  simp only [fsRead, fsWrite]
  rw [@List.find?_cons_of_neg _ (fun kv => kv.1 == p) (k, v)
      (List.filter (fun kv => !(kv.1 == k)) fs) (by simp [Ne.symm h]),
    find?_filter_ne h]

/-! ### Claims -/

/-- C1 (amended): every line on which `_FUNCTION_REGEX` does not match is
processed without any exception — it either produces its class/variable/
array emissions or is silently skipped; consequently a source none of whose
lines matches the function-signature pattern is always scanned successfully.
(The original claim is refuted by `c1_counterexample`: a line that does
match the function-signature pattern can raise a `ValueError` while its
parameter list is unpacked.) -/
theorem c1_no_exception_without_function_match :
    (∀ (classes : List (List Char)) (st : ScanState) (line : List Char),
        funcSearch line = none → (processLine classes st line).isSome) ∧
    (∀ code : String, (∀ l ∈ splitChar '\n' code.data, funcSearch l = none) →
        (generateStubsString code).isSome) := by
  constructor
  · exact fun classes st line h => processLine_isSome_of_no_func classes st line h
  · intro code h
    obtain ⟨st, hst⟩ := Option.isSome_iff_exists.mp
      (foldlM_isSome_of_no_func (classesFindall code.data) (splitChar '\n' code.data)
        initState h)
    simp only [generateStubsString, hst]
    simp

theorem c1_witness : (generateStubsString ("int x;")).isSome :=
  c1_no_exception_without_function_match.2 ("int x;") (by decide)

/-- C1 (counterexample): the scanning pass does raise on the input line
`int f(x)` — `_FUNCTION_REGEX` matches it (its parameter class only needs
one character, which need not contain a space), and the unpacking
`parameter_type_string, parameter_name = parameter.split(' ')` in
`_get_function_annotations` then raises a `ValueError` (modelled by
`none`), so the scan of the whole source fails rather than skipping the
line. -/
theorem c1_counterexample : generateStubsString ("int f(x)") = none := by decide

/-- C2 (amended): for the input line `int add(int a, int b)` the generator
emits exactly `def add(a: int,b: int,) -> int: ...` followed by a blank
line: each parameter is emitted as `name: mapped_type` immediately followed
by a comma (including after the last parameter) and with no space after the
comma, in the original parameter order. -/
theorem c2_function_emission :
    generateStubsString ("int add(int a, int b)") =
      some (String.mk (baseString.data ++ "def add(a: int,b: int,) -> int: ...\n\n".data)) := by
  decide

/-- C2 (counterexample): the emission for `int add(int a, int b)` is not
the claimed text `def add(a: int, b: int) -> int: ...` — the scanner writes
a comma after every parameter including the last and no space after commas,
so the emitted line is `def add(a: int,b: int,) -> int: ...` instead. -/
theorem c2_counterexample :
    generateStubsString ("int add(int a, int b)") ≠
      some (String.mk (baseString.data ++ "def add(a: int, b: int) -> int: ...\n\n".data)) ∧
    getFunctionAnnotations ("int".data, "add".data, "(int a, int b)".data) [] 0 =
      some ("def add(a: int,b: int,) -> int: ...\n\n".data) :=
  ⟨by decide, by decide⟩

/-- C4 (confirmed): the type mapper `_get_name` maps each of the twelve
primitive spellings of `_CTYPES_CONVERSIONS` to the corresponding Python
scalar type name (`void` to `None`, `bool` to `bool`, `char`/`wchar_t` to
`str`, the integer variants to `int`, `float`/`double` to `float`)
regardless of the known class names; any other token that is a known class
name is returned unchanged; every remaining token maps to the generic
marker `typing.Any`.  It is a total pure function by construction. -/
theorem c4_type_mapper :
    (∀ classes : List (List Char),
        getName ("void".data) classes = "None".data ∧
        getName ("bool".data) classes = "bool".data ∧
        getName ("char".data) classes = "str".data ∧
        getName ("wchar_t".data) classes = "str".data ∧
        getName ("short".data) classes = "int".data ∧
        getName ("int".data) classes = "int".data ∧
        getName ("long".data) classes = "int".data ∧
        getName ("__int64".data) classes = "int".data ∧
        getName ("size_t".data) classes = "int".data ∧
        getName ("ssize_t".data) classes = "int".data ∧
        getName ("float".data) classes = "float".data ∧
        getName ("double".data) classes = "float".data) ∧
    (∀ (t : List Char) (classes : List (List Char)),
        t ∉ primitiveTable → t ∈ classes → getName t classes = t) ∧
    (∀ (t : List Char) (classes : List (List Char)),
        t ∉ primitiveTable → t ∉ classes → getName t classes = "typing.Any".data) := by
  have key : ∀ (t : List Char) (classes : List (List Char)), t ∉ primitiveTable →
      getName t classes = if t ∈ classes then t else "typing.Any".data := by
    intro t classes h
    have h' : ∀ s ∈ primitiveTable, t ≠ s := fun s hs e => h (e ▸ hs)
    simp only [getName]
    rw [if_neg (h' _ (by decide)), if_neg (h' _ (by decide)), if_neg (h' _ (by decide)),
      if_neg (h' _ (by decide)), if_neg (h' _ (by decide)), if_neg (h' _ (by decide)),
      if_neg (h' _ (by decide)), if_neg (h' _ (by decide)), if_neg (h' _ (by decide)),
      if_neg (h' _ (by decide)), if_neg (h' _ (by decide)), if_neg (h' _ (by decide))]
  refine ⟨fun classes => ⟨rfl, rfl, rfl, rfl, rfl, rfl, rfl, rfl, rfl, rfl, rfl, rfl⟩,
    fun t classes h hm => ?_, fun t classes h hm => ?_⟩
  · rw [key t classes h, if_pos hm]
  · rw [key t classes h, if_neg hm]

/-- C3 (amended): the variable branch emits only if the captured *type*
token (group 1 of `_VAR_REGEX`, the first captured identifier — not the
captured name, which is group 2) is not the literal token `return`, and the
brace counts are equal or the last matched construct is not a function:
a `return`-typed match is always suppressed, the emission happens exactly
under the stated condition, and an emission implies the condition; in
particular a `return x;` line immediately after a matched function
signature (unequal brace counts, `last_match == 'function'`) produces no
variable emission, as the concrete scan in the last conjunct shows. -/
theorem c3_variable_guard :
    (∀ (classes : List (List Char)) (level : Int) (ob cb : Nat) (n : List Char)
        (pair : List Char × String),
        varStep classes level ob cb pair (some ("return".data, n)) = pair) ∧
    (∀ (classes : List (List Char)) (level : Int) (ob cb : Nat) (t n : List Char)
        (pair : List Char × String),
        t ≠ "return".data → (ob = cb ∨ pair.2 ≠ "function") →
        varStep classes level ob cb pair (some (t, n)) =
          (pair.1 ++ indentOf level ++ n ++ ": ".data ++ getName t classes ++ "\n".data,
           "var")) ∧
    (∀ (classes : List (List Char)) (level : Int) (ob cb : Nat) (t n : List Char)
        (pair : List Char × String),
        varStep classes level ob cb pair (some (t, n)) ≠ pair →
        t ≠ "return".data ∧ (ob = cb ∨ pair.2 ≠ "function")) ∧
    generateStubsString ("int add(int a, int b) \x7b\nreturn x;\n\x7d") =
      some (String.mk (baseString.data ++ "def add(a: int,b: int,) -> int: ...\n\n".data)) := by
  refine ⟨fun classes level ob cb n pair => by simp [varStep],
    fun classes level ob cb t n pair h1 h2 => ?_,
    fun classes level ob cb t n pair h => ?_, by decide⟩
  · simp only [varStep]
    rw [if_pos ⟨h1, h2⟩]
  · by_contra hc
    exact h (by simp only [varStep]; rw [if_neg hc])

theorem c3_witness :
    varStep [] 0 0 0 ([], "") (some ("int".data, "x".data)) =
      ([] ++ indentOf 0 ++ "x".data ++ ": ".data ++ getName ("int".data) [] ++ "\n".data,
       "var") :=
  c3_variable_guard.2.1 [] 0 0 0 ("int".data) ("x".data) ([], "") (by decide) (Or.inl rfl)

/-- C3 (counterexample): the claim's guard names the captured *name*; but
on the top-level line `int return;` the captured name (group 2) is the
literal token `return` while the captured type (group 1) is `int`, and the
scanner *does* emit the variable declaration `return: int` — so "emitted
only if the captured name is not `return`" is false of the code; the guard
reads group 1. -/
theorem c3_counterexample :
    varSearch ("int return;".data) = some ("int".data, "return".data) ∧
    generateStubsString ("int return;") =
      some (String.mk (baseString.data ++ "return: int\n".data)) :=
  ⟨by decide, by decide⟩

/-- C5 (amended): a line matched by `_ARRAY_REGEX` appends, at the indent
level of before the line's adjustment, the declaration
`<name>: _MutableCollection[<mapped type>]` — with the underscore-prefixed
preamble class `_MutableCollection`, not the bare name `MutableCollection`
— and sets `last_match` to `array`; the concrete top-level input line
`int values[10] = {0};` produces exactly
`values: _MutableCollection[int]`. -/
theorem c5_array_emission :
    (∀ (classes : List (List Char)) (st : ScanState) (line t n : List Char)
        (st' : ScanState),
        arraySearch line = some (t, n) → processLine classes st line = some st' →
        st'.last = "array" ∧
        ∃ pre, st'.out = pre ++ indentOf st.level ++ n ++ ": _MutableCollection[".data
            ++ getName t classes ++ "]\n".data) ∧
    processLine [] initState (("int values[10] = \x7b0\x7d;").data) =
      some { out := baseString.data ++ "values: _MutableCollection[int]\n".data,
             level := 0, ob := 1, cb := 1, last := "array" } := by
  refine ⟨fun classes st line t n st' ha h => ?_, by decide⟩
  obtain ⟨txt, last', hlo, rfl⟩ := processLine_elim h
  obtain ⟨h2, pre, hpre⟩ := lineOut_array ha hlo
  refine ⟨h2, st.out ++ pre, ?_⟩
  dsimp only
  rw [show txt = pre ++ indentOf st.level ++ n ++ ": _MutableCollection[".data
        ++ getName t classes ++ "]\n".data from hpre]
  simp [List.append_assoc]

theorem c5_witness :
    ({ out := baseString.data ++ "values: _MutableCollection[int]\n".data,
       level := 0, ob := 1, cb := 1, last := "array" } : ScanState).last = "array" ∧
    ∃ pre,
      ({ out := baseString.data ++ "values: _MutableCollection[int]\n".data,
         level := 0, ob := 1, cb := 1, last := "array" } : ScanState).out =
        pre ++ indentOf initState.level ++ "values".data ++ ": _MutableCollection[".data
          ++ getName ("int".data) [] ++ "]\n".data :=
  c5_array_emission.1 [] initState (("int values[10] = \x7b0\x7d;").data)
    ("int".data) ("values".data) _ (by decide) (by decide)

/-- C5 (counterexample): for the top-level line `int values[10] = {0};` the
emitted declaration is `values: _MutableCollection[int]` — the collection
type carries the leading underscore of the preamble class
`_MutableCollection`, so the output is not the claimed text
`values: MutableCollection[int]`. -/
theorem c5_counterexample :
    generateStubsString ("int values[10] = \x7b0\x7d;") =
      some (String.mk (baseString.data ++ "values: _MutableCollection[int]\n".data)) ∧
    String.mk (baseString.data ++ "values: _MutableCollection[int]\n".data) ≠
      String.mk (baseString.data ++ "values: MutableCollection[int]\n".data) :=
  ⟨by decide, by decide⟩

/-- C8 (confirmed): throughout the scan the indent level is a non-negative
multiple of the indent unit 4 (for the whole fold from the initial state
and preserved by every step); after a line containing `{` that is not a
function-signature line (and without `}`) it increases by exactly one unit;
after a line containing `}` that is not a function-signature line (without
`{`) it decreases by exactly one unit when it was at least one unit;
function-signature lines never change it; and the emissions of a line are
rendered at the indent level of before that line's adjustment, as the class
header line in the last conjunct shows (emitted at `st.level` while the
resulting level is `st.level + 4`). -/
theorem c8_indent_invariant :
    (∀ (classes : List (List Char)) (code : String) (st' : ScanState),
        (splitChar '\n' code.data).foldlM (processLine classes) initState = some st' →
        0 ≤ st'.level ∧ (4 : Int) ∣ st'.level) ∧
    (∀ (classes : List (List Char)) (st : ScanState) (line : List Char) (st' : ScanState),
        processLine classes st line = some st' → 0 ≤ st.level → (4 : Int) ∣ st.level →
        0 ≤ st'.level ∧ (4 : Int) ∣ st'.level) ∧
    (∀ (classes : List (List Char)) (st : ScanState) (line : List Char) (st' : ScanState),
        processLine classes st line = some st' → '{' ∈ line → '}' ∉ line →
        funcSearch line = none → st'.level = st.level + 4) ∧
    (∀ (classes : List (List Char)) (st : ScanState) (line : List Char) (st' : ScanState),
        processLine classes st line = some st' → '}' ∈ line → '{' ∉ line →
        funcSearch line = none → 4 ≤ st.level → st'.level = st.level - 4) ∧
    (∀ (classes : List (List Char)) (st : ScanState) (line : List Char) (st' : ScanState),
        processLine classes st line = some st' → funcSearch line ≠ none →
        st'.level = st.level) ∧
    (∀ (classes : List (List Char)) (st : ScanState),
        processLine classes st (("class A \x7b").data) =
          some { out := st.out ++ (indentOf st.level ++ "class ".data ++ "A".data
                          ++ ":\n".data ++ indentOf (st.level + 4) ++ "...\n".data),
                 level := st.level + 4, ob := st.ob + 1, cb := st.cb, last := "class" }) := by
  refine ⟨fun classes code st' h =>
      scan_level_invariant classes _ initState (by decide) ⟨0, rfl⟩ st' h,
    fun classes st line st' h h0 h4 => processLine_level_invariant h h0 h4,
    fun classes st line st' h h1 h2 h3 => ?_,
    fun classes st line st' h h1 h2 h3 h4 => ?_,
    fun classes st line st' h h5 => ?_,
    fun classes st => ?_⟩
  · obtain ⟨txt, last', _, rfl⟩ := processLine_elim h
    dsimp only
    have hin : (if '{' ∈ line ∧ funcSearch line = none then st.level + 4 else st.level)
        = st.level + 4 := if_pos ⟨h1, h3⟩
    rw [hin, if_neg (fun hc => h2 hc.1)]
  · obtain ⟨txt, last', _, rfl⟩ := processLine_elim h
    dsimp only
    have hin : (if '{' ∈ line ∧ funcSearch line = none then st.level + 4 else st.level)
        = st.level := if_neg (fun hc => h2 hc.1)
    rw [hin, if_pos ⟨h1, h4, h3⟩]
  · obtain ⟨txt, last', _, rfl⟩ := processLine_elim h
    dsimp only
    have hin : (if '{' ∈ line ∧ funcSearch line = none then st.level + 4 else st.level)
        = st.level := if_neg (fun hc => h5 hc.2)
    rw [hin, if_neg (fun hc => h5 hc.2.2)]
  · have hc : classSearch (("class A \x7b").data) = some ("A".data) := by decide
    have hf : funcSearch (("class A \x7b").data) = none := by decide
    have hv : varSearch (("class A \x7b").data) = none := by decide
    have ha : arraySearch (("class A \x7b").data) = none := by decide
    have hob : ('{' ∈ ("class A \x7b").data) := by decide
    have hcb : ('}' ∉ ("class A \x7b").data) := by decide
    simp [processLine, lineOut, hc, hf, hv, ha, classStep, funcStep, varStep, arrStep,
      hob, hcb, List.append_assoc]

theorem c8_witness :
    ({ out := baseString.data, level := 4, ob := 1, cb := 0, last := "" } : ScanState).level
      = initState.level + 4 :=
  c8_indent_invariant.2.2.1 [] initState (("x \x7b").data)
    { out := baseString.data, level := 4, ob := 1, cb := 0, last := "" }
    (by decide) (by decide) (by decide) (by decide)

theorem c4_witness :
    getName ("Foo".data) ["Foo".data] = "Foo".data ∧
    getName ("Bar".data) ["Foo".data] = "typing.Any".data :=
  ⟨c4_type_mapper.2.1 ("Foo".data) [("Foo".data)] (by decide) (by decide),
   c4_type_mapper.2.2 ("Bar".data) [("Foo".data)] (by decide) (by decide)⟩

/-- C6 (amended): `re.sub` replaces every non-overlapping occurrence of
`.cpp`/`.c` in the path, not only a trailing suffix; when the part of the
path before the trailing source suffix contains no occurrence of the
two-character sequence `.c`, the destination is the input with only the
suffix rewritten to `.pyi`, as the claim says. -/
theorem c6_suffix_rewrite :
    ∀ stem : List Char, noDotC stem = true →
      stubsPath (String.mk (stem ++ ".cpp".data)) = String.mk (stem ++ ".pyi".data) ∧
      stubsPath (String.mk (stem ++ ".c".data)) = String.mk (stem ++ ".pyi".data) := by
  intro stem h
  exact ⟨congrArg String.mk (fileSuffixSub_append stem h _ (Or.inl rfl)),
    congrArg String.mk (fileSuffixSub_append stem h _ (Or.inr rfl))⟩

theorem c6_witness :
    stubsPath (String.mk ("ab".data ++ ".cpp".data)) = String.mk ("ab".data ++ ".pyi".data) :=
  (c6_suffix_rewrite ("ab".data) (by decide)).1

/-- C6 (counterexample): the suffix pattern is substituted at every
position of the path, so for the input path `a.c.c` the stub destination is
`a.pyi.pyi`, not `a.c.pyi` — the part of the path before the final suffix
is *not* left unchanged. -/
theorem c6_counterexample :
    stubsPath ("a.c.c") = "a.pyi.pyi" ∧ ("a.pyi.pyi" : String) ≠ "a.c.pyi" :=
  ⟨by decide, by decide⟩

/-- C7 (confirmed): the scanning pass is a pure function of the source
text, so two runs on the same text give the same output by construction;
operationally, when the derived stub path differs from the source path (the
source is otherwise overwritten, i.e. changed, by the first run), re-running
the generator on the unchanged source rewrites the stub file with identical
content and leaves the file system fixed. -/
theorem c7_idempotent :
    ∀ (fs : FS) (path : String) (fs' : FS),
      stubsPath path ≠ path → generateStubsFS fs path = some fs' →
      generateStubsFS fs' path = some fs' := by
  intro fs path fs' hne h
  simp only [generateStubsFS] at h ⊢
  cases hr : fsRead fs path with
  | none => rw [hr] at h; exact Option.noConfusion h
  | some src =>
    rw [hr] at h
    change (match generateStubsString src with
      | none => none
      | some out => some (fsWrite fs (stubsPath path) out)) = some fs' at h
    cases hg : generateStubsString src with
    | none => rw [hg] at h; exact Option.noConfusion h
    | some out =>
      rw [hg] at h
      have hfs' : fs' = fsWrite fs (stubsPath path) out := (Option.some_inj.mp h).symm
      subst hfs'
      rw [fsRead_fsWrite_ne (Ne.symm hne), hr]
      change (match generateStubsString src with
        | none => none
        | some out' =>
          some (fsWrite (fsWrite fs (stubsPath path) out) (stubsPath path) out'))
        = some (fsWrite fs (stubsPath path) out)
      rw [hg]
      change some (fsWrite (fsWrite fs (stubsPath path) out) (stubsPath path) out)
        = some (fsWrite fs (stubsPath path) out)
      rw [fsWrite_fsWrite]

theorem c7_witness :
    generateStubsFS [("a.cpp", "int x;")] "a.cpp" =
      some [("a.pyi", String.mk (baseString.data ++ "x: int\n".data)),
            ("a.cpp", "int x;")] ∧
    generateStubsFS [("a.pyi", String.mk (baseString.data ++ "x: int\n".data)),
            ("a.cpp", "int x;")] "a.cpp" =
      some [("a.pyi", String.mk (baseString.data ++ "x: int\n".data)),
            ("a.cpp", "int x;")] :=
  ⟨by decide, c7_idempotent [("a.cpp", "int x;")] "a.cpp" _ (by decide) (by decide)⟩

/-- C9 (confirmed): a function declaration with an empty parameter list is
never recognized: `_FUNCTION_REGEX` requires at least one character of its
parameter class between the parentheses (every match's group 3 has length
at least 3, counting the two parentheses), so the line `int f()` matches
nothing at all and produces no emission — the output is exactly the
preamble. -/
theorem c9_empty_parameter_list :
    funcSearch (("int f()").data) = none ∧
    generateStubsString ("int f()") = some (String.mk baseString.data) ∧
    (∀ l g1 g2 g3 : List Char, funcSearch l = some (g1, g2, g3) → 3 ≤ g3.length) :=
  ⟨by decide, by decide, fun l g1 g2 g3 h => funcSearch_group3_length h⟩

theorem c9_witness : 3 ≤ ("(x)".data).length :=
  c9_empty_parameter_list.2.2 (("int f(x)").data) ("int".data) ("f".data) ("(x)".data)
    (by decide)

/-- C10 (confirmed): the pre-scan pattern `_GET_CLASSES_REGEX` requires a
literal `{`, so a source with no opening brace on any line yields an empty
`classes` list, while the per-line `_CLASS_REGEX` does not require a brace
and still emits the class header; consequently for the forward declaration
source `class Foo;` followed by a use `Foo x;`, the header block for `Foo`
is emitted, `Foo` is not a known class name, and the later use of `Foo` as
a type resolves to `typing.Any` rather than to `Foo`. -/
theorem c10_forward_declaration :
    (∀ l : List Char, '{' ∉ l → classesFindall l = []) ∧
    classesFindall (("class Foo;\nFoo x;").data) = [] ∧
    generateStubsString ("class Foo;\nFoo x;") =
      some (String.mk (baseString.data
        ++ "class Foo:\n    ...\nFoo: typing.Any\nx: typing.Any\n".data)) ∧
    getName ("Foo".data) (classesFindall (("class Foo;\nFoo x;").data)) =
      "typing.Any".data :=
  ⟨fun l h => classesFindallGo_nil l.length l h, by decide, by decide, by decide⟩

theorem c10_witness : classesFindall (("int x;").data) = [] :=
  c10_forward_declaration.1 (("int x;").data) (by decide)

end EasyCpp
